import Mathlib

/-!
Verification of the perplexity-agent-mcp core against its specification.

The development shallowly embeds the two central pieces of the code base:

* `stripThinkContent` — the reasoning-block stripper from
  `src/strip-think-content.ts`, modelled over `List Char` with
  JavaScript `indexOf` / `lastIndexOf` as `firstIdx` / `lastIdx`.
* `performChatCompletion` — the chat-completion orchestrator from
  `src/perplexity-client.ts`, with the network abstracted as the outcome
  of the single `fetch` call, the zod schema `PerplexityResponse`
  embedded as a parser over a JSON value type, citation rendering, and
  the final trim-plus-newline normalization.
-/

/-! ## Substring occurrences, JavaScript indexOf and lastIndexOf -/

/-- `pat` occurs in `s` starting at position `i`. -/
def occursAt (pat s : List Char) (i : Nat) : Prop :=
  pat.isPrefixOf (s.drop i) = true

instance occursAt.decidable (pat s : List Char) (i : Nat) :
    Decidable (occursAt pat s i) := by
  unfold occursAt; infer_instance

/-- JavaScript `input.indexOf(pat)`: position of the first occurrence. -/
def firstIdx (pat : List Char) : List Char → Option Nat
  | [] => if pat.isPrefixOf ([] : List Char) then some 0 else none
  | c :: cs =>
    if pat.isPrefixOf (c :: cs) then some 0
    else (firstIdx pat cs).map (· + 1)

/-- JavaScript `input.lastIndexOf(pat)`: position of the last occurrence. -/
def lastIdx (pat : List Char) : List Char → Option Nat
  | [] => if pat.isPrefixOf ([] : List Char) then some 0 else none
  | c :: cs =>
    match lastIdx pat cs with
    | some i => some (i + 1)
    | none => if pat.isPrefixOf (c :: cs) then some 0 else none

/-- The opening marker `<think>` of a reasoning block. -/
def openTag : List Char := "<think>".data

/-- The closing marker `</think>` of a reasoning block. -/
def closeTag : List Char := "</think>".data

theorem openTag_ne_nil : openTag ≠ [] := by decide

theorem closeTag_ne_nil : closeTag ≠ [] := by decide

theorem openTag_length : openTag.length = 7 := by decide

theorem closeTag_length : closeTag.length = 8 := by decide

/-- Embedding of `stripThinkContent` from `src/strip-think-content.ts`:
find the first `<think>`, the last `</think>`, return the input unchanged
when either is missing or the close precedes the open, otherwise delete
the span between them inclusively. -/
def stripThinkContent (input : List Char) : List Char :=
  match firstIdx openTag input with
  | none => input
  | some firstOpen =>
    match lastIdx closeTag input with
    | none => input
    | some lastClose =>
      if lastClose < firstOpen then input
      else input.take firstOpen ++ input.drop (lastClose + closeTag.length)

/-- String-level wrapper of the stripper, as exported by the source file. -/
def stripThinkContentStr (s : String) : String :=
  String.mk (stripThinkContent s.data)

/-! ### Basic facts about isPrefixOf-based occurrences -/

theorem pref_nil_false (pat : List Char) (h : pat ≠ []) :
    pat.isPrefixOf ([] : List Char) = false := by
  cases pat with
  | nil => exact absurd rfl h
  | cons a as => rfl

theorem pref_length {pat l : List Char} (h : pat.isPrefixOf l = true) :
    pat.length ≤ l.length := by
  induction pat generalizing l with
  | nil => simp
  | cons p ps ih =>
    cases l with
    | nil => simp [List.isPrefixOf] at h
    | cons b bs =>
      simp only [List.isPrefixOf, Bool.and_eq_true] at h
      simpa using ih h.2

theorem pref_split {pat u v : List Char} (h : pat.isPrefixOf (u ++ v) = true)
    (hl : pat.length ≤ u.length) : pat.isPrefixOf u = true := by
  induction pat generalizing u with
  | nil => simp [List.isPrefixOf]
  | cons p ps ih =>
    cases u with
    | nil => simp at hl
    | cons b bs =>
      simp only [List.cons_append, List.isPrefixOf, Bool.and_eq_true] at h ⊢
      exact ⟨h.1, ih h.2 (by simpa using hl)⟩

theorem pref_take {pat l : List Char} {n : Nat}
    (h : pat.isPrefixOf (l.take n) = true) : pat.isPrefixOf l = true := by
  induction pat generalizing l n with
  | nil => simp [List.isPrefixOf]
  | cons p ps ih =>
    cases n with
    | zero => simp [List.isPrefixOf] at h
    | succ m =>
      cases l with
      | nil => simp [List.isPrefixOf] at h
      | cons b bs =>
        rw [List.take_succ_cons] at h
        simp only [List.isPrefixOf, Bool.and_eq_true] at h ⊢
        exact ⟨h.1, ih h.2⟩

theorem pref_getElem {pat l : List Char} {k : Nat}
    (h : pat.isPrefixOf l = true) (hk : k < pat.length) :
    l[k]? = pat[k]? := by
  induction pat generalizing l k with
  | nil => simp at hk
  | cons p ps ih =>
    cases l with
    | nil => simp [List.isPrefixOf] at h
    | cons b bs =>
      simp only [List.isPrefixOf, Bool.and_eq_true] at h
      have hb : p = b := (eq_of_beq h.1).symm ▸ rfl
      cases k with
      | zero => simp [eq_of_beq h.1]
      | succ k' =>
        rw [List.getElem?_cons_succ, List.getElem?_cons_succ]
        exact ih h.2 (by simpa using hk)

theorem occ_bound {pat s : List Char} {i : Nat} (hp : pat ≠ [])
    (h : occursAt pat s i) : i + pat.length ≤ s.length := by
  unfold occursAt at h
  have h1 : pat.length ≤ (s.drop i).length := pref_length h
  rw [List.length_drop] at h1
  have h2 : i ≤ s.length := by
    by_contra hc
    push_neg at hc
    rw [List.drop_eq_nil_of_le (Nat.le_of_lt hc), pref_nil_false pat hp] at h
    exact Bool.false_ne_true h
  have h3 : 1 ≤ pat.length := by
    cases pat with
    | nil => exact absurd rfl hp
    | cons a as => simp
  omega

theorem occ_zero {pat s : List Char} :
    occursAt pat s 0 ↔ pat.isPrefixOf s = true := by
  unfold occursAt
  rw [List.drop_zero]

theorem occ_cons_succ {pat : List Char} {c : Char} {cs : List Char} {i : Nat} :
    occursAt pat (c :: cs) (i + 1) ↔ occursAt pat cs i := by
  unfold occursAt
  rw [List.drop_succ_cons]

theorem occ_take {pat s : List Char} {n o : Nat}
    (h : occursAt pat (s.take n) o) : occursAt pat s o := by
  unfold occursAt at h ⊢
  rw [List.drop_take] at h
  exact pref_take h

theorem occ_drop_shift {pat s : List Char} {m c : Nat}
    (h : occursAt pat (s.drop m) c) : occursAt pat s (m + c) := by
  unfold occursAt at h ⊢
  rw [List.drop_drop] at h
  exact h

theorem occ_getElem {pat s : List Char} {i k : Nat}
    (h : occursAt pat s i) (hk : k < pat.length) :
    s[i + k]? = pat[k]? := by
  unfold occursAt at h
  rw [← List.getElem?_drop]
  exact pref_getElem h hk

theorem occ_append_split {pat b a : List Char} {i : Nat}
    (h : occursAt pat (b ++ a) i) :
    (occursAt pat b i ∧ i + pat.length ≤ b.length) ∨
    (b.length ≤ i ∧ occursAt pat a (i - b.length)) ∨
    (i < b.length ∧ b.length < i + pat.length) := by
  unfold occursAt at h
  rw [List.drop_append_eq_append_drop] at h
  rcases Nat.lt_or_ge i b.length with hi | hi
  · rcases le_or_lt (i + pat.length) b.length with hl | hl
    · left
      refine ⟨?_, hl⟩
      unfold occursAt
      have hlen : pat.length ≤ (b.drop i).length := by
        rw [List.length_drop]; omega
      exact pref_split h hlen
    · right; right; exact ⟨hi, hl⟩
  · right; left
    refine ⟨hi, ?_⟩
    unfold occursAt
    rw [List.drop_eq_nil_of_le hi, List.nil_append] at h
    exact h

/-! ### Characterization of firstIdx and lastIdx -/

theorem firstIdx_eq_none {pat : List Char} (hp : pat ≠ []) (s : List Char) :
    firstIdx pat s = none ↔ ∀ i, ¬ occursAt pat s i := by
  induction s with
  | nil =>
    simp only [firstIdx, pref_nil_false pat hp, if_false]
    constructor
    · intro _ i
      unfold occursAt
      rw [List.drop_nil, pref_nil_false pat hp]
      simp
    · intro _; rfl
  | cons c cs ih =>
    by_cases hc : pat.isPrefixOf (c :: cs) = true
    · simp only [firstIdx, hc, if_true]
      constructor
      · intro h; exact absurd h (by simp)
      · intro h
        exact absurd (occ_zero.mpr hc) (h 0)
    · simp only [firstIdx, hc, if_false]
      rw [Bool.not_eq_true] at hc
      constructor
      · intro h i
        have hnone : firstIdx pat cs = none := by
          cases hfi : firstIdx pat cs with
          | none => rfl
          | some v => rw [hfi] at h; simp at h
        cases i with
        | zero =>
          rw [occ_zero]
          simp [hc]
        | succ i' =>
          rw [occ_cons_succ]
          exact (ih.mp hnone) i'
      · intro h
        have hnone : firstIdx pat cs = none := by
          apply ih.mpr
          intro i hi
          exact (h (i + 1)) (occ_cons_succ.mpr hi)
        rw [hnone]; rfl

theorem firstIdx_eq_some {pat : List Char} (hp : pat ≠ []) (s : List Char)
    (i : Nat) :
    firstIdx pat s = some i ↔
      (occursAt pat s i ∧ ∀ k, k < i → ¬ occursAt pat s k) := by
  induction s generalizing i with
  | nil =>
    simp only [firstIdx, pref_nil_false pat hp, if_false]
    constructor
    · intro h; exact absurd h (by simp)
    · rintro ⟨h, -⟩
      unfold occursAt at h
      rw [List.drop_nil, pref_nil_false pat hp] at h
      exact absurd h (by simp)
  | cons c cs ih =>
    by_cases hc : pat.isPrefixOf (c :: cs) = true
    · simp only [firstIdx, hc, if_true]
      constructor
      · intro h
        have hi : i = 0 := by
          have := Option.some.inj h; omega
        subst hi
        exact ⟨occ_zero.mpr hc, by intro k hk; omega⟩
      · rintro ⟨hocc, hmin⟩
        cases i with
        | zero => rfl
        | succ i' =>
          exact absurd (occ_zero.mpr hc) (hmin 0 (Nat.succ_pos i'))
    · rw [Bool.not_eq_true] at hc
      have hIf : firstIdx pat (c :: cs) = (firstIdx pat cs).map (· + 1) := by
        simp [firstIdx, hc]
      rw [hIf]
      constructor
      · intro h
        rw [Option.map_eq_some'] at h
        obtain ⟨i', hi', hii⟩ := h
        obtain ⟨hocc, hmin⟩ := (ih i').mp hi'
        subst hii
        refine ⟨occ_cons_succ.mpr hocc, ?_⟩
        intro k hk
        cases k with
        | zero =>
          rw [occ_zero]
          simp [hc]
        | succ k' =>
          rw [occ_cons_succ]
          exact hmin k' (by omega)
      · rintro ⟨hocc, hmin⟩
        cases i with
        | zero =>
          rw [occ_zero] at hocc
          rw [hocc] at hc
          simp at hc
        | succ i' =>
          rw [occ_cons_succ] at hocc
          have hmin' : ∀ k, k < i' → ¬ occursAt pat cs k := by
            intro k hk hkocc
            exact (hmin (k + 1) (by omega)) (occ_cons_succ.mpr hkocc)
          rw [(ih i').mpr ⟨hocc, hmin'⟩]
          rfl

theorem lastIdx_eq_none {pat : List Char} (hp : pat ≠ []) (s : List Char) :
    lastIdx pat s = none ↔ ∀ i, ¬ occursAt pat s i := by
  induction s with
  | nil =>
    simp only [lastIdx, pref_nil_false pat hp, if_false]
    constructor
    · intro _ i
      unfold occursAt
      rw [List.drop_nil, pref_nil_false pat hp]
      simp
    · intro _; rfl
  | cons c cs ih =>
    constructor
    · intro h i
      have hnone : lastIdx pat cs = none := by
        cases hfi : lastIdx pat cs with
        | none => rfl
        | some v => simp only [lastIdx, hfi] at h; exact absurd h (by simp)
      simp only [lastIdx, hnone] at h
      have hc : pat.isPrefixOf (c :: cs) ≠ true := by
        intro hc
        rw [if_pos hc] at h
        exact absurd h (by simp)
      cases i with
      | zero =>
        rw [occ_zero]
        exact hc
      | succ i' =>
        rw [occ_cons_succ]
        exact (ih.mp hnone) i'
    · intro h
      have hnone : lastIdx pat cs = none := by
        apply ih.mpr
        intro i hi
        exact (h (i + 1)) (occ_cons_succ.mpr hi)
      have hc : pat.isPrefixOf (c :: cs) = false := by
        rw [← Bool.not_eq_true]
        intro hc
        exact (h 0) (occ_zero.mpr hc)
      simp [lastIdx, hnone, hc]

theorem lastIdx_eq_some {pat : List Char} (hp : pat ≠ []) (s : List Char)
    (j : Nat) :
    lastIdx pat s = some j ↔
      (occursAt pat s j ∧ ∀ k, occursAt pat s k → k ≤ j) := by
  induction s generalizing j with
  | nil =>
    simp only [lastIdx, pref_nil_false pat hp, if_false]
    constructor
    · intro h; exact absurd h (by simp)
    · rintro ⟨h, -⟩
      unfold occursAt at h
      rw [List.drop_nil, pref_nil_false pat hp] at h
      exact absurd h (by simp)
  | cons c cs ih =>
    cases hlc : lastIdx pat cs with
    | some i =>
      obtain ⟨hocc, hmax⟩ := (ih i).mp hlc
      simp only [lastIdx, hlc]
      constructor
      · intro h
        have hj : j = i + 1 := by
          have := Option.some.inj h; omega
        subst hj
        refine ⟨occ_cons_succ.mpr hocc, ?_⟩
        intro k hk
        cases k with
        | zero => omega
        | succ k' =>
          have := hmax k' (occ_cons_succ.mp hk)
          omega
      · rintro ⟨hoccj, hmaxj⟩
        cases j with
        | zero =>
          have := hmaxj (i + 1) (occ_cons_succ.mpr hocc)
          omega
        | succ j' =>
          have h1 : j' ≤ i := hmax j' (occ_cons_succ.mp hoccj)
          have h2 : i + 1 ≤ j' + 1 := hmaxj (i + 1) (occ_cons_succ.mpr hocc)
          have : j' = i := by omega
          subst this
          rfl
    | none =>
      have hnone : ∀ i, ¬ occursAt pat cs i := (lastIdx_eq_none hp cs).mp hlc
      simp only [lastIdx, hlc]
      by_cases hc : pat.isPrefixOf (c :: cs) = true
      · rw [if_pos hc]
        constructor
        · intro h
          have hj : j = 0 := by
            have := Option.some.inj h; omega
          subst hj
          refine ⟨occ_zero.mpr hc, ?_⟩
          intro k hk
          cases k with
          | zero => exact Nat.le_refl 0
          | succ k' => exact absurd (occ_cons_succ.mp hk) (hnone k')
        · rintro ⟨hoccj, -⟩
          cases j with
          | zero => rfl
          | succ j' => exact absurd (occ_cons_succ.mp hoccj) (hnone j')
      · rw [if_neg hc]
        constructor
        · intro h; exact absurd h (by simp)
        · rintro ⟨hoccj, -⟩
          cases j with
          | zero => exact absurd (occ_zero.mp hoccj) hc
          | succ j' => exact absurd (occ_cons_succ.mp hoccj) (hnone j')

/-! ### Reduction lemmas for stripThinkContent -/

theorem strip_eq_of_firstIdx_none {s : List Char}
    (h : firstIdx openTag s = none) : stripThinkContent s = s := by
  unfold stripThinkContent
  rw [h]

theorem strip_eq_of_lastIdx_none {s : List Char}
    (h : lastIdx closeTag s = none) : stripThinkContent s = s := by
  unfold stripThinkContent
  cases hf : firstIdx openTag s with
  | none => rfl
  | some fo => rw [h]

theorem strip_eq_of_indices {s : List Char} {fo lc : Nat}
    (h1 : firstIdx openTag s = some fo) (h2 : lastIdx closeTag s = some lc) :
    stripThinkContent s =
      if lc < fo then s else s.take fo ++ s.drop (lc + closeTag.length) := by
  unfold stripThinkContent
  rw [h1, h2]

theorem strip_cases (s : List Char) :
    stripThinkContent s = s ∨
    ∃ fo lc, firstIdx openTag s = some fo ∧ lastIdx closeTag s = some lc ∧
      fo ≤ lc ∧
      stripThinkContent s = s.take fo ++ s.drop (lc + closeTag.length) := by
  cases h1 : firstIdx openTag s with
  | none => exact Or.inl (strip_eq_of_firstIdx_none h1)
  | some fo =>
    cases h2 : lastIdx closeTag s with
    | none => exact Or.inl (strip_eq_of_lastIdx_none h2)
    | some lc =>
      by_cases hlt : lc < fo
      · left
        rw [strip_eq_of_indices h1 h2, if_pos hlt]
      · right
        exact ⟨fo, lc, rfl, rfl, by omega,
          by rw [strip_eq_of_indices h1 h2, if_neg hlt]⟩

/-! ### No marker pair survives a strip -/

theorem open_close_no_overlap {r : List Char} {o d : Nat} (hd : d ≤ 6)
    (ho : occursAt openTag r o) (hc : occursAt closeTag r (o + d)) :
    False := by
  rcases Nat.eq_zero_or_pos d with h0 | hpos
  · subst h0
    rw [Nat.add_zero] at hc
    have h3 : r[o + 1]? = openTag[1]? := occ_getElem ho (by decide)
    have h4 : r[o + 1]? = closeTag[1]? := occ_getElem hc (by decide)
    exact absurd (h3.symm.trans h4) (by decide)
  · have h1 : r[o + d]? = openTag[d]? :=
      occ_getElem ho (by rw [openTag_length]; omega)
    have h2 : r[o + d + 0]? = closeTag[0]? := occ_getElem hc (by decide)
    rw [Nat.add_zero] at h2
    have h5 : openTag[d]? = closeTag[0]? := h1.symm.trans h2
    interval_cases d
    · exact absurd h5 (by decide)
    · exact absurd h5 (by decide)
    · exact absurd h5 (by decide)
    · exact absurd h5 (by decide)
    · exact absurd h5 (by decide)
    · exact absurd h5 (by decide)

theorem strip_no_pair {s : List Char} {fo lc : Nat}
    (h1 : firstIdx openTag s = some fo) (h2 : lastIdx closeTag s = some lc)
    (_hle : fo ≤ lc) :
    ∀ o c, occursAt openTag (s.take fo ++ s.drop (lc + closeTag.length)) o →
      occursAt closeTag (s.take fo ++ s.drop (lc + closeTag.length)) c →
      c < o := by
  obtain ⟨hfo_occ, hfo_min⟩ := (firstIdx_eq_some openTag_ne_nil s fo).mp h1
  obtain ⟨hlc_occ, hlc_max⟩ := (lastIdx_eq_some closeTag_ne_nil s lc).mp h2
  have hbound := occ_bound openTag_ne_nil hfo_occ
  rw [openTag_length] at hbound
  have hblen : (s.take fo).length = fo := by
    rw [List.length_take]
    omega
  intro o c ho hc
  by_contra hoc
  push_neg at hoc
  have hclose_a : ∀ c', ¬ occursAt closeTag (s.drop (lc + closeTag.length)) c' := by
    intro c' hcc
    have hshift := occ_drop_shift hcc
    have hmax := hlc_max _ hshift
    rw [closeTag_length] at hmax
    omega
  rcases occ_append_split ho with ⟨hob, hol⟩ | ⟨hge, hoa⟩ | ⟨hlt1, hlt2⟩
  · have hos := occ_take hob
    rw [openTag_length, hblen] at hol
    exact (hfo_min o (by omega)) hos
  · rcases occ_append_split hc with ⟨hcb, hcl⟩ | ⟨hcge, hca⟩ | ⟨hclt1, hclt2⟩
    · rw [closeTag_length, hblen] at hcl
      rw [hblen] at hge
      omega
    · exact (hclose_a _) hca
    · rw [hblen] at hge hclt1
      omega
  · rcases occ_append_split hc with ⟨hcb, hcl⟩ | ⟨hcge, hca⟩ | ⟨hclt1, hclt2⟩
    · rw [closeTag_length, hblen] at hcl
      rw [openTag_length, hblen] at hlt2
      omega
    · exact (hclose_a _) hca
    · rw [hblen] at hclt1
      rw [openTag_length, hblen] at hlt2
      have hd : c - o ≤ 6 := by omega
      have hco : o + (c - o) = c := by omega
      rw [← hco] at hc
      exact open_close_no_overlap hd ho hc

theorem strip_eq_self_of_no_pair {s : List Char}
    (h : ∀ o c, occursAt openTag s o → occursAt closeTag s c → c < o) :
    stripThinkContent s = s := by
  cases h1 : firstIdx openTag s with
  | none => exact strip_eq_of_firstIdx_none h1
  | some fo =>
    cases h2 : lastIdx closeTag s with
    | none => exact strip_eq_of_lastIdx_none h2
    | some lc =>
      have hocc1 := ((firstIdx_eq_some openTag_ne_nil s fo).mp h1).1
      have hocc2 := ((lastIdx_eq_some closeTag_ne_nil s lc).mp h2).1
      rw [strip_eq_of_indices h1 h2, if_pos (h fo lc hocc1 hocc2)]

/-! ## Claims about the stripper -/

/-- C1: `stripThinkContent` behaves as the reference definition: the input
is returned unchanged when it has no occurrence of the open marker, no
occurrence of the close marker, or the last close marker begins before the
first open marker; otherwise the result is the text strictly before the
first open marker concatenated with the text strictly after the last close
marker, with nothing else changed. -/
theorem claim_C1_strip_reference (s : List Char) :
    ((∀ i, ¬ occursAt openTag s i) → stripThinkContent s = s) ∧
    ((∀ j, ¬ occursAt closeTag s j) → stripThinkContent s = s) ∧
    (∀ i j, occursAt openTag s i → (∀ k, k < i → ¬ occursAt openTag s k) →
      occursAt closeTag s j → (∀ k, occursAt closeTag s k → k ≤ j) →
      j < i → stripThinkContent s = s) ∧
    (∀ i j, occursAt openTag s i → (∀ k, k < i → ¬ occursAt openTag s k) →
      occursAt closeTag s j → (∀ k, occursAt closeTag s k → k ≤ j) →
      i ≤ j →
      stripThinkContent s = s.take i ++ s.drop (j + closeTag.length)) := by
  refine ⟨?_, ?_, ?_, ?_⟩
  · intro h
    exact strip_eq_of_firstIdx_none ((firstIdx_eq_none openTag_ne_nil s).mpr h)
  · intro h
    exact strip_eq_of_lastIdx_none ((lastIdx_eq_none closeTag_ne_nil s).mpr h)
  · intro i j hoi hmin hoj hmax hji
    rw [strip_eq_of_indices
      ((firstIdx_eq_some openTag_ne_nil s i).mpr ⟨hoi, hmin⟩)
      ((lastIdx_eq_some closeTag_ne_nil s j).mpr ⟨hoj, hmax⟩), if_pos hji]
  · intro i j hoi hmin hoj hmax hij
    rw [strip_eq_of_indices
      ((firstIdx_eq_some openTag_ne_nil s i).mpr ⟨hoi, hmin⟩)
      ((lastIdx_eq_some closeTag_ne_nil s j).mpr ⟨hoj, hmax⟩),
      if_neg (by omega)]

/-- Witness for C1 at the input `a<think>b</think>c` with first open marker
at index 1 and last close marker at index 9. -/
theorem claim_C1_witness :
    stripThinkContent "a<think>b</think>c".data =
      "a<think>b</think>c".data.take 1 ++
        "a<think>b</think>c".data.drop (9 + closeTag.length) := by
  have hf := (firstIdx_eq_some openTag_ne_nil "a<think>b</think>c".data 1).mp
    (by decide)
  have hl := (lastIdx_eq_some closeTag_ne_nil "a<think>b</think>c".data 9).mp
    (by decide)
  exact (claim_C1_strip_reference "a<think>b</think>c".data).2.2.2 1 9
    hf.1 hf.2 hl.1 hl.2 (by omega)

/-- C2 counterexample: the spec's worked example is wrong about the exact
output — stripping `A <think>1</think> B <think>2</think> C` does not give
`A C` with a single interior space, because the space before the first open
marker and the space after the last close marker are both preserved. -/
theorem claim_C2_counterexample :
    stripThinkContentStr "A <think>1</think> B <think>2</think> C" ≠ "A C" := by
  decide

/-- C2 (amended): stripping `A <think>1</think> B <think>2</think> C`
yields `A  C` with two spaces — the whole span from the first open marker
to the last close marker is deleted and no whitespace is collapsed, so the
space before the span and the space after it both remain. -/
theorem claim_C2_strip_example :
    stripThinkContentStr "A <think>1</think> B <think>2</think> C" = "A  C" := by
  decide

/-- C9: the stripper is idempotent — applying `stripThinkContent` twice
gives the same result as applying it once, because the single deletion can
never leave or create an open marker followed by a close marker. -/
theorem claim_C9_strip_idempotent (s : List Char) :
    stripThinkContent (stripThinkContent s) = stripThinkContent s := by
  rcases strip_cases s with h | ⟨fo, lc, h1, h2, hle, heq⟩
  · rw [h]
    exact h
  · rw [heq]
    exact strip_eq_self_of_no_pair (strip_no_pair h1 h2 hle)

/-! ## JSON values and the zod response schema -/

/-- Decoded JSON values, as produced by `response.json()`. -/
inductive Json where
  | null : Json
  | bool (b : Bool) : Json
  | num (n : Int) : Json
  | str (s : String) : Json
  | arr (elems : List Json) : Json
  | obj (fields : List (String × Json)) : Json

/-- Object field lookup. -/
def getField (fields : List (String × Json)) (key : String) : Option Json :=
  match fields.find? (fun p => p.1 == key) with
  | some p => some p.2
  | none => none

/-- One entry of `search_results`, as in the `SearchResult` zod schema of
`src/schemas.ts`: `title` and `url` required strings, `date` and
`last_updated` optional strings. -/
structure SearchResult where
  title : String
  url : String
  date : Option String
  last_updated : Option String
deriving DecidableEq

/-- The `message` object inside a choice: `content` an optional string. -/
structure Message where
  content : Option String
deriving DecidableEq

/-- One entry of `choices`: `message` optional. -/
structure Choice where
  message : Option Message
deriving DecidableEq

/-- The minimal response shape of the `PerplexityResponse` zod schema:
`choices` and `search_results` both optional. -/
structure PerplexityResponse where
  choices : Option (List Choice)
  search_results : Option (List SearchResult)
deriving DecidableEq

/-- zod `z.string()` on a required object key: the key must be present and
hold a string. -/
def parseReqString (fields : List (String × Json)) (key : String) :
    Option String :=
  match getField fields key with
  | some (.str s) => some s
  | _ => none

/-- zod `z.string().optional()` on an object key: an absent key parses to
`none`; a present key must hold a string. -/
def parseOptString (fields : List (String × Json)) (key : String) :
    Option (Option String) :=
  match getField fields key with
  | none => some none
  | some (.str s) => some (some s)
  | some _ => none

/-- zod parse of one search result object. -/
def parseSearchResult : Json → Option SearchResult
  | .obj fields =>
    match parseReqString fields "title", parseReqString fields "url",
        parseOptString fields "date", parseOptString fields "last_updated" with
    | some t, some u, some d, some lu => some ⟨t, u, d, lu⟩
    | _, _, _, _ => none
  | _ => none

/-- zod `z.array` elementwise parse: every element must parse. -/
def parseSearchResultList : List Json → Option (List SearchResult)
  | [] => some []
  | j :: js =>
    match parseSearchResult j, parseSearchResultList js with
    | some r, some rs => some (r :: rs)
    | _, _ => none

/-- zod parse of the `search_results` array. -/
def parseSearchResults : Json → Option (List SearchResult)
  | .arr elems => parseSearchResultList elems
  | _ => none

/-- zod parse of a `message` object. -/
def parseMessage : Json → Option Message
  | .obj fields =>
    match parseOptString fields "content" with
    | some c => some ⟨c⟩
    | none => none
  | _ => none

/-- zod parse of one `choices` entry. -/
def parseChoice : Json → Option Choice
  | .obj fields =>
    match getField fields "message" with
    | none => some ⟨none⟩
    | some v =>
      match parseMessage v with
      | some m => some ⟨some m⟩
      | none => none
  | _ => none

/-- zod `z.array` elementwise parse of choices. -/
def parseChoiceList : List Json → Option (List Choice)
  | [] => some []
  | j :: js =>
    match parseChoice j, parseChoiceList js with
    | some c, some cs => some (c :: cs)
    | _, _ => none

/-- zod parse of the `choices` array. -/
def parseChoices : Json → Option (List Choice)
  | .arr elems => parseChoiceList elems
  | _ => none

/-- `.optional()` on an object key carrying a nested schema. -/
def parseOptField {α : Type} (p : Json → Option α)
    (fields : List (String × Json)) (key : String) : Option (Option α) :=
  match getField fields key with
  | none => some none
  | some v => (p v).map some

/-- Embedding of `PerplexityResponse.safeParse`: `some` is a successful
parse, `none` is `success: false`. A non-object payload, or any present
field that fails its nested schema, fails the whole parse. -/
def parsePerplexityResponse : Json → Option PerplexityResponse
  | .obj fields =>
    match parseOptField parseChoices fields "choices",
        parseOptField parseSearchResults fields "search_results" with
    | some cs, some rs => some ⟨cs, rs⟩
    | _, _ => none
  | _ => none

/-! ## Citation rendering, JS trim, response assembly -/

/-- One rendered citation line, from the `lines` map in
`performChatCompletion`. JavaScript truthiness of `sr.date` means an empty
date string produces no suffix, exactly like an absent one. -/
def renderLine (n : Nat) (sr : SearchResult) : String :=
  let dateSuffix : String :=
    match sr.date with
    | some d => if d = "" then "" else " (" ++ d ++ ")"
    | none => ""
  "[" ++ toString n ++ "] " ++ sr.title ++ " — " ++ sr.url ++ dateSuffix

/-- The rendered lines, 1-indexed in input order. -/
def renderLinesFrom (n : Nat) : List SearchResult → List String
  | [] => []
  | sr :: rest => renderLine n sr :: renderLinesFrom (n + 1) rest

/-- `results.map((sr, index) => ...).join("\n")`. -/
def renderSources (results : List SearchResult) : String :=
  String.intercalate "\n" (renderLinesFrom 1 results)

/-- The ECMAScript whitespace and line-terminator set trimmed by
`String.prototype.trim`. -/
def isJsWhitespace (c : Char) : Bool :=
  c.toNat = 9 || c.toNat = 10 || c.toNat = 11 || c.toNat = 12 ||
  c.toNat = 13 || c.toNat = 32 || c.toNat = 160 || c.toNat = 0x1680 ||
  (0x2000 ≤ c.toNat && c.toNat ≤ 0x200A) || c.toNat = 0x2028 ||
  c.toNat = 0x2029 || c.toNat = 0x202F || c.toNat = 0x205F ||
  c.toNat = 0x3000 || c.toNat = 0xFEFF

/-- `String.prototype.trim`: drop leading and trailing whitespace. -/
def jsTrim (s : List Char) : List Char :=
  ((s.dropWhile isJsWhitespace).reverse.dropWhile isJsWhitespace).reverse

/-- String-level wrapper of the trim. -/
def jsTrimStr (s : String) : String :=
  String.mk (jsTrim s.data)

/-- Content extraction `parsedResponse.data.choices?.[0]?.message?.content
?? ""`, with the empty string on a failed parse. -/
def extractContent : Option PerplexityResponse → String
  | some d =>
    (Option.bind (Option.bind (Option.bind d.choices List.head?)
      Choice.message) Message.content).getD ""
  | none => ""

/-- The Sources block append: only on a successful parse with a present,
non-empty `search_results` array. -/
def appendSources : Option PerplexityResponse → String → String
  | some d, content =>
    match d.search_results with
    | some results =>
      if results.length > 0 then
        content ++ "\n\nSources:\n" ++ renderSources results
      else content
    | none => content
  | none, content => content

/-- The combined answer-plus-citations text before normalization:
extracted content, think blocks stripped, Sources block appended. -/
def combinedContent (j : Json) : String :=
  appendSources (parsePerplexityResponse j)
    (stripThinkContentStr (extractContent (parsePerplexityResponse j)))

/-- The success-path result: combined text trimmed, then exactly one
newline appended. -/
def assembleContent (j : Json) : String :=
  jsTrimStr (combinedContent j) ++ "\n"

/-! ## The orchestrator and its failure modes -/

/-- The observable outcome of the single `fetch` call: response flag and
status line, plus the outcomes of reading the body as text and as JSON. -/
structure HttpResponse where
  ok : Bool
  status : Nat
  statusText : String
  textResult : Except String String
  jsonResult : Except String Json

/-- The four error classes thrown by `performChatCompletion`. -/
inductive CompletionError where
  | configError (message : String)
  | networkError (message : String)
  | statusError (message : String)
  | parseError (message : String)
deriving DecidableEq

/-- The missing-credential message. -/
def configErrorMessage : String :=
  "PERPLEXITY_API_KEY is not set. Please export it before calling performChatCompletion()."

/-- Embedding of `performChatCompletion` from `src/perplexity-client.ts`.
`apiKey` is `process.env.PERPLEXITY_API_KEY` at call time; JavaScript
truthiness makes the empty string count as missing. `fetchResult` is the
outcome of the one outbound `fetch` call; everything after it follows the
source line by line. -/
def performChatCompletion (apiKey : Option String)
    (fetchResult : Except String HttpResponse) :
    Except CompletionError String :=
  match apiKey with
  | none => .error (.configError configErrorMessage)
  | some key =>
    if key = "" then .error (.configError configErrorMessage)
    else
      match fetchResult with
      | .error m =>
        .error (.networkError
          ("Network error while calling Perplexity API: " ++ m))
      | .ok response =>
        if response.ok = false then
          .error (.statusError
            ("Perplexity API error: " ++ toString response.status ++ " " ++
              response.statusText ++ "\n" ++
              (match response.textResult with
               | .ok t => t
               | .error _ => "Unable to parse error response")))
        else
          match response.jsonResult with
          | .error m =>
            .error (.parseError
              ("Failed to parse JSON response from Perplexity API: " ++ m))
          | .ok j => .ok (assembleContent j)

/-! ### Helper lemmas about trim and assembly -/

theorem head_dropWhile_not {p : Char → Bool} {l : List Char} {c : Char}
    (h : (l.dropWhile p).head? = some c) : p c = false := by
  induction l with
  | nil => simp [List.dropWhile] at h
  | cons a as ih =>
    by_cases hp : p a = true
    · rw [show (a :: as).dropWhile p = as.dropWhile p from by
        simp [List.dropWhile, hp]] at h
      exact ih h
    · rw [show (a :: as).dropWhile p = a :: as from by
        simp [List.dropWhile, hp]] at h
      rw [List.head?_cons] at h
      cases h
      simpa using hp

theorem getLast_dropWhile_not {p : Char → Bool} {l : List Char}
    (h : l.dropWhile p ≠ []) : (l.dropWhile p).getLast? = l.getLast? := by
  induction l with
  | nil => simp [List.dropWhile] at h
  | cons a as ih =>
    by_cases hp : p a = true
    · have hd : (a :: as).dropWhile p = as.dropWhile p := by
        simp [List.dropWhile, hp]
      rw [hd] at h ⊢
      rw [ih h]
      cases as with
      | nil => simp [List.dropWhile] at h
      | cons b bs => rw [List.getLast?_cons_cons]
    · have hd : (a :: as).dropWhile p = a :: as := by
        simp [List.dropWhile, hp]
      rw [hd]

theorem jsTrim_head {s : List Char} {c : Char}
    (h : (jsTrim s).head? = some c) : isJsWhitespace c = false := by
  unfold jsTrim at h
  rw [List.head?_reverse] at h
  have hne : (s.dropWhile isJsWhitespace).reverse.dropWhile isJsWhitespace
      ≠ [] := by
    intro he
    rw [he] at h
    simp at h
  rw [getLast_dropWhile_not hne, List.getLast?_reverse] at h
  exact head_dropWhile_not h

theorem jsTrim_getLast {s : List Char} {c : Char}
    (h : (jsTrim s).getLast? = some c) : isJsWhitespace c = false := by
  unfold jsTrim at h
  rw [List.getLast?_reverse] at h
  exact head_dropWhile_not h

theorem assembleContent_of_parse_none {j : Json}
    (h : parsePerplexityResponse j = none) : assembleContent j = "\n" := by
  unfold assembleContent combinedContent
  rw [h]
  rfl

theorem assembleContent_of_empty {j : Json} {d : PerplexityResponse}
    (h : parsePerplexityResponse j = some d) (hc : d.choices = none)
    (hs : d.search_results = none) : assembleContent j = "\n" := by
  simp only [assembleContent, combinedContent, h, extractContent,
    appendSources, hc, hs, Option.none_bind, Option.getD_none]
  rfl

theorem renderLinesFrom_getElem (rs : List SearchResult) :
    ∀ n k, (renderLinesFrom n rs)[k]? =
      (rs[k]?).map (fun sr => renderLine (n + k) sr) := by
  induction rs with
  | nil =>
    intro n k
    simp [renderLinesFrom]
  | cons sr rest ih =>
    intro n k
    cases k with
    | zero => simp [renderLinesFrom]
    | succ k' =>
      show (renderLine n sr :: renderLinesFrom (n + 1) rest)[k' + 1]? = _
      rw [List.getElem?_cons_succ, ih (n + 1) k', List.getElem?_cons_succ]
      have harith : n + 1 + k' = n + (k' + 1) := by omega
      rw [harith]

theorem renderLinesFrom_length (rs : List SearchResult) :
    ∀ n, (renderLinesFrom n rs).length = rs.length := by
  induction rs with
  | nil => intro n; rfl
  | cons sr rest ih =>
    intro n
    simp [renderLinesFrom, ih]

theorem parseOptField_some {α : Type} (p : Json → Option α)
    (fields : List (String × Json)) (key : String) (v : Json)
    (h : getField fields key = some v) :
    parseOptField p fields key = (p v).map some := by
  unfold parseOptField
  rw [h]

theorem parseSearchResultList_none {xs : List Json} {e : Json}
    (he : e ∈ xs) (hp : parseSearchResult e = none) :
    parseSearchResultList xs = none := by
  induction xs with
  | nil => cases he
  | cons j js ih =>
    rcases List.mem_cons.mp he with rfl | hmem
    · simp [parseSearchResultList, hp]
    · cases hpj : parseSearchResult j <;>
        simp [parseSearchResultList, hpj, ih hmem]

/-! ## Claims about the orchestrator -/

/-- C3: with a key present, `performChatCompletion` fails exactly on the
three upstream conditions — the fetch itself fails (network error wrapping
the cause), the status is non-OK (status error carrying code, status text
and best-effort body or the fixed placeholder), or an OK body fails JSON
decoding (a parse error distinct from the status error) — and otherwise
succeeds; the single-fetch embedding performs no retry. -/
theorem claim_C3_error_taxonomy (key : String) (hk : key ≠ "") :
    (∀ m, performChatCompletion (some key) (.error m) =
      .error (.networkError
        ("Network error while calling Perplexity API: " ++ m))) ∧
    (∀ st stx bodyText jr,
      performChatCompletion (some key) (.ok ⟨false, st, stx, .ok bodyText, jr⟩) =
        .error (.statusError ("Perplexity API error: " ++ toString st ++ " "
          ++ stx ++ "\n" ++ bodyText))) ∧
    (∀ st stx em jr,
      performChatCompletion (some key) (.ok ⟨false, st, stx, .error em, jr⟩) =
        .error (.statusError ("Perplexity API error: " ++ toString st ++ " "
          ++ stx ++ "\n" ++ "Unable to parse error response"))) ∧
    (∀ st stx tr em,
      performChatCompletion (some key) (.ok ⟨true, st, stx, tr, .error em⟩) =
        .error (.parseError
          ("Failed to parse JSON response from Perplexity API: " ++ em))) ∧
    (∀ st stx tr j,
      performChatCompletion (some key) (.ok ⟨true, st, stx, tr, .ok j⟩) =
        .ok (assembleContent j)) ∧
    (∀ m m', CompletionError.parseError m ≠ CompletionError.statusError m') := by
  refine ⟨?_, ?_, ?_, ?_, ?_, ?_⟩ <;> intros <;>
    simp [performChatCompletion, hk]

/-- Witness for C3: a concrete network failure surfaces as the wrapped
transport error. -/
theorem claim_C3_witness :
    performChatCompletion (some "k") (.error "ECONNREFUSED") =
      .error (.networkError
        ("Network error while calling Perplexity API: " ++ "ECONNREFUSED")) :=
  (claim_C3_error_taxonomy "k" (by decide)).1 "ECONNREFUSED"

/-- C4: an HTTP-success response with decodable JSON never throws; a
payload failing schema validation yields exactly the one-newline string,
and so does a validated payload with neither choices nor search results. -/
theorem claim_C4_schema_mismatch_not_fatal (key : String) (st : Nat)
    (stx : String) (tr : Except String String) (j : Json) (hk : key ≠ "") :
    (∃ s, performChatCompletion (some key) (.ok ⟨true, st, stx, tr, .ok j⟩) =
      .ok s) ∧
    (parsePerplexityResponse j = none →
      performChatCompletion (some key) (.ok ⟨true, st, stx, tr, .ok j⟩) =
        .ok "\n") ∧
    (∀ d, parsePerplexityResponse j = some d → d.choices = none →
      d.search_results = none →
      performChatCompletion (some key) (.ok ⟨true, st, stx, tr, .ok j⟩) =
        .ok "\n") := by
  refine ⟨⟨assembleContent j, by simp [performChatCompletion, hk]⟩, ?_, ?_⟩
  · intro h
    simp [performChatCompletion, hk, assembleContent_of_parse_none h]
  · intro d h hc hs
    simp [performChatCompletion, hk, assembleContent_of_empty h hc hs]

/-- Witness for C4: a JSON string payload fails validation and the call
still succeeds with the bare newline. -/
theorem claim_C4_witness :
    performChatCompletion (some "k") (.ok ⟨true, 200, "OK", .ok "",
      .ok (.str "oops")⟩) = .ok "\n" :=
  (claim_C4_schema_mismatch_not_fatal "k" 200 "OK" (.ok "") (.str "oops")
    (by decide)).2.1 rfl

/-- C5: end-to-end assembly of the spec's example payload — think block
stripped, one citation line, trimmed, one trailing newline. -/
theorem claim_C5_end_to_end (key : String) (st : Nat) (stx : String)
    (tr : Except String String) (hk : key ≠ "") :
    performChatCompletion (some key) (.ok ⟨true, st, stx, tr,
      .ok (Json.obj
        [("choices", Json.arr [Json.obj [("message", Json.obj
          [("content", Json.str "<think>x</think>Answer")])]]),
         ("search_results", Json.arr [Json.obj [("title", Json.str "A"),
          ("url", Json.str "http://a")]])])⟩) =
      .ok "Answer\n\nSources:\n[1] A — http://a\n" := by
  have hassemble : assembleContent (Json.obj
      [("choices", Json.arr [Json.obj [("message", Json.obj
        [("content", Json.str "<think>x</think>Answer")])]]),
       ("search_results", Json.arr [Json.obj [("title", Json.str "A"),
        ("url", Json.str "http://a")]])]) =
      "Answer\n\nSources:\n[1] A — http://a\n" := by decide
  simp [performChatCompletion, hk, hassemble]

/-- Witness for C5 at a concrete key. -/
theorem claim_C5_witness :
    performChatCompletion (some "k") (.ok ⟨true, 200, "OK", .ok "",
      .ok (Json.obj
        [("choices", Json.arr [Json.obj [("message", Json.obj
          [("content", Json.str "<think>x</think>Answer")])]]),
         ("search_results", Json.arr [Json.obj [("title", Json.str "A"),
          ("url", Json.str "http://a")]])])⟩) =
      .ok "Answer\n\nSources:\n[1] A — http://a\n" :=
  claim_C5_end_to_end "k" 200 "OK" (.ok "") (by decide)

/-- C8: with no credential available at call time — absent, or empty under
JavaScript truthiness — the call fails with the configuration error naming
the missing variable, independently of any fetch outcome, so the outbound
request is never consulted. -/
theorem claim_C8_credential_fail_fast :
    (∀ fetchResult, performChatCompletion none fetchResult =
      .error (.configError configErrorMessage)) ∧
    (∀ fetchResult, performChatCompletion (some "") fetchResult =
      .error (.configError configErrorMessage)) := by
  constructor
  · intro fr; rfl
  · intro fr; rfl

/-- C10: one malformed entry of `search_results` fails the whole-payload
validation, so the valid answer content is discarded along with the
citations and the call returns exactly the one-newline string. -/
theorem claim_C10_all_or_nothing (key : String) (st : Nat) (stx : String)
    (tr : Except String String) (fields : List (String × Json)) (cv : Json)
    (cs : List Choice) (txt : String) (xs : List Json) (e : Json)
    (hk : key ≠ "")
    (hcv : getField fields "choices" = some cv)
    (hcs : parseChoices cv = some cs)
    (_htxt : Option.bind (Option.bind cs.head? Choice.message)
      Message.content = some txt)
    (hsr : getField fields "search_results" = some (.arr xs))
    (he : e ∈ xs) (hbad : parseSearchResult e = none) :
    parsePerplexityResponse (.obj fields) = none ∧
    performChatCompletion (some key)
      (.ok ⟨true, st, stx, tr, .ok (.obj fields)⟩) = .ok "\n" := by
  have h1 : parseOptField parseChoices fields "choices" = some (some cs) := by
    rw [parseOptField_some parseChoices fields "choices" cv hcv, hcs]
    rfl
  have h2 : parseOptField parseSearchResults fields "search_results" =
      none := by
    rw [parseOptField_some parseSearchResults fields "search_results"
      (Json.arr xs) hsr]
    show (parseSearchResultList xs).map some = none
    rw [parseSearchResultList_none he hbad]
    rfl
  have hnone : parsePerplexityResponse (.obj fields) = none := by
    simp only [parsePerplexityResponse]
    rw [h1, h2]
  exact ⟨hnone, by simp [performChatCompletion, hk,
    assembleContent_of_parse_none hnone]⟩

/-- Witness for C10: a valid answer plus one citation record lacking its
`url` collapses the whole call to the bare newline. -/
theorem claim_C10_witness :
    performChatCompletion (some "k") (.ok ⟨true, 200, "OK", .ok "",
      .ok (.obj [("choices", Json.arr [Json.obj [("message", Json.obj
        [("content", Json.str "Hello")])]]), ("search_results",
        Json.arr [Json.obj [("title", Json.str "T")]])])⟩) = .ok "\n" :=
  (claim_C10_all_or_nothing "k" 200 "OK" (.ok "")
    [("choices", Json.arr [Json.obj [("message", Json.obj
      [("content", Json.str "Hello")])]]), ("search_results",
      Json.arr [Json.obj [("title", Json.str "T")]])]
    (Json.arr [Json.obj [("message", Json.obj
      [("content", Json.str "Hello")])]])
    [⟨some ⟨some "Hello"⟩⟩] "Hello"
    [Json.obj [("title", Json.str "T")]] (Json.obj [("title", Json.str "T")])
    (by decide) rfl rfl rfl rfl (List.mem_cons_self _ _) rfl).2

/-- C6 counterexample: a record whose `date` field is present but holds the
empty string renders with no date suffix, because JavaScript truthiness
treats the empty string as absent — so the original "if and only if the
date field is present" fails. -/
theorem claim_C6_counterexample :
    (SearchResult.mk "T" "U" (some "") none).date.isSome = true ∧
    renderLine 1 ⟨"T", "U", some "", none⟩ = "[1] T — U" ∧
    ("[1] T — U" : String) ≠ "[1] T — U ()" := by
  refine ⟨rfl, by decide, by decide⟩

/-- C6 (amended): an empty source sequence renders as the empty string; a
non-empty one renders one line per record, in input order and 1-indexed,
each line `[n] title — url` with the ` (date)` suffix appended exactly when
the record's date is present and non-empty; `last_updated` is never
rendered; the lines are newline-joined under a `Sources:` header separated
from the answer by a blank line; and the record `title T, url U, date 2024`
renders as `[1] T — U (2024)`. -/
theorem claim_C6_citation_rendering :
    renderSources [] = "" ∧
    (∀ rs : List SearchResult, ∀ k sr, rs[k]? = some sr →
      (renderLinesFrom 1 rs)[k]? = some (renderLine (1 + k) sr)) ∧
    (∀ rs : List SearchResult, (renderLinesFrom 1 rs).length = rs.length) ∧
    (∀ n (sr : SearchResult) d, sr.date = some d → d ≠ "" →
      renderLine n sr = "[" ++ toString n ++ "] " ++ sr.title ++ " — " ++
        sr.url ++ " (" ++ d ++ ")") ∧
    (∀ n (sr : SearchResult), (sr.date = none ∨ sr.date = some "") →
      renderLine n sr =
        "[" ++ toString n ++ "] " ++ sr.title ++ " — " ++ sr.url) ∧
    (∀ n t u dt lu1 lu2,
      renderLine n ⟨t, u, dt, lu1⟩ = renderLine n ⟨t, u, dt, lu2⟩) ∧
    (∀ rs, renderSources rs =
      String.intercalate "\n" (renderLinesFrom 1 rs)) ∧
    (∀ (d : PerplexityResponse) results content,
      d.search_results = some results → results.length > 0 →
      appendSources (some d) content =
        content ++ "\n\nSources:\n" ++ renderSources results) ∧
    renderLine 1 ⟨"T", "U", some "2024", none⟩ = "[1] T — U (2024)" := by
  refine ⟨rfl, ?_, ?_, ?_, ?_, ?_, ?_, ?_, by decide⟩
  · intro rs k sr h
    rw [renderLinesFrom_getElem rs 1 k, h]
    rfl
  · intro rs
    exact renderLinesFrom_length rs 1
  · intro n sr d hd hne
    simp [renderLine, hd, hne, String.append_assoc]
  · intro n sr hd
    rcases hd with hd | hd <;> simp [renderLine, hd, String.append_assoc]
  · intro n t u dt lu1 lu2
    rfl
  · intro rs
    rfl
  · intro d results content hsr hlen
    simp [appendSources, hsr, hlen]

/-- Witness for C6: the date-suffix rule applied at a concrete non-empty
date. -/
theorem claim_C6_witness :
    renderLine 3 ⟨"T", "U", some "2024", none⟩ = "[3] T — U (2024)" := by
  rw [claim_C6_citation_rendering.2.2.2.1 3 ⟨"T", "U", some "2024", none⟩
    "2024" rfl (by decide)]
  decide

/-- C7 counterexample: a successful completion with an empty payload
returns exactly the one-newline string, whose first character is
whitespace — so "never begins with whitespace" fails as stated. -/
theorem claim_C7_counterexample :
    performChatCompletion (some "k") (.ok ⟨true, 200, "OK", .ok "",
      .ok (Json.obj [])⟩) = .ok "\n" ∧
    ("\n" : String).data.head? = some '\n' ∧
    isJsWhitespace '\n' = true := by
  refine ⟨rfl, rfl, by decide⟩

/-- C7 (amended): every success-path result equals the combined
answer-plus-citations text trimmed plus exactly one appended newline;
it always ends with a newline, the character before that final newline is
never whitespace, and the first character is not whitespace whenever the
trimmed text is non-empty — when the trimmed text is empty the result is
exactly the one-newline string. -/
theorem claim_C7_normalization (j : Json) :
    assembleContent j = jsTrimStr (combinedContent j) ++ "\n" ∧
    (assembleContent j).data.getLast? = some '\n' ∧
    (∀ c, (assembleContent j).data.dropLast.getLast? = some c →
      isJsWhitespace c = false) ∧
    (jsTrim (combinedContent j).data ≠ [] → ∀ c,
      (assembleContent j).data.head? = some c → isJsWhitespace c = false) ∧
    (jsTrim (combinedContent j).data = [] → assembleContent j = "\n") := by
  have hdata : (assembleContent j).data =
      jsTrim (combinedContent j).data ++ ['\n'] := rfl
  refine ⟨rfl, ?_, ?_, ?_, ?_⟩
  · rw [hdata]
    exact List.getLast?_concat _
  · intro c h
    rw [hdata, List.dropLast_concat] at h
    exact jsTrim_getLast h
  · intro hne c hch
    have hh : (jsTrim (combinedContent j).data).head? = some c := by
      cases hl : jsTrim (combinedContent j).data with
      | nil => exact absurd hl hne
      | cons a as =>
        rw [hdata, hl] at hch
        simpa using hch
    exact jsTrim_head hh
  · intro he
    show jsTrimStr (combinedContent j) ++ "\n" = "\n"
    have hempty : jsTrimStr (combinedContent j) = "" := by
      unfold jsTrimStr
      rw [he]
    rw [hempty]
    rfl

/-- Witness for C7: a non-empty trimmed text begins with its own
non-whitespace first character. -/
theorem claim_C7_witness : isJsWhitespace 'h' = false :=
  (claim_C7_normalization (Json.obj [("choices", Json.arr [Json.obj
    [("message", Json.obj [("content", Json.str "hi")])]])])).2.2.2.1
    (by decide) 'h' (by decide)
